import Mathlib

/-!
Shallow embedding of `src/arithmetic_practice_generator.py`.

Randomness model: Python `random.randint(lo, hi)` returns an arbitrary value of
the interval [lo, hi] and raises `ValueError` when hi < lo.  Each call site
receives an integer tape parameter `d`; the drawn value is
`lo + d % (hi - lo + 1)`, which ranges over exactly [lo, hi] as `d` ranges over
ℤ (so universally quantifying over the tape quantifies over every possible
draw, and no unreachable draw is introduced).  `random.choice` likewise
receives an index draw.

Float model: every float produced by the problem generators is an exact small
rational (integer products, divisions by exact divisors, divisions by 10 of
integers below 100), and every comparison made by the code on those values has
a margin far larger than any rounding error, so coefficients and exponents are
modelled in ℚ and ℤ.
-/

/-- Value drawn by `random.randint(lo, hi)` on a nonempty range, driven by the
tape value `d`.  Surjective onto [lo, hi] for `lo ≤ hi`. -/
def draw (lo hi d : ℤ) : ℤ := lo + d % (hi - lo + 1)

/-- Python `random.randint(lo, hi)`: `ValueError` on an empty range, else a draw. -/
def randint (lo hi d : ℤ) : Except String ℤ :=
  if hi < lo then Except.error "empty range in randrange()" else Except.ok (draw lo hi d)

/-- Record returned by `ArithmeticPracticeGenerator.generate_problem`
(line 72 of the source). -/
structure Problem where
  top : ℤ
  bottom : ℤ
  operation : String
  answer : ℤ
deriving DecidableEq

/-- `ArithmeticPracticeGenerator.generate_problem` (source lines 44-72).
The two tape values `d1`, `d2` drive the two `randint` calls in source order. -/
def generate_problem (operation : String) (min_val max_val : ℤ)
    (allow_negative_results : Bool) (d1 d2 : ℤ) : Except String Problem :=
  if operation = "+" then
    match randint min_val max_val d1, randint min_val max_val d2 with
    | Except.ok a, Except.ok b =>
        Except.ok { top := a, bottom := b, operation := "+", answer := a + b }
    | Except.error e, _ => Except.error e
    | Except.ok _, Except.error e => Except.error e
  else if operation = "-" then
    (if allow_negative_results then
      match randint min_val max_val d1, randint min_val max_val d2 with
      | Except.ok a, Except.ok b =>
          Except.ok { top := a, bottom := b, operation := "-", answer := a - b }
      | Except.error e, _ => Except.error e
      | Except.ok _, Except.error e => Except.error e
    else
      match randint min_val max_val d1 with
      | Except.error e => Except.error e
      | Except.ok a =>
          match randint min_val a d2 with
          | Except.error e => Except.error e
          | Except.ok b =>
              Except.ok { top := a, bottom := b, operation := "-", answer := a - b })
  else if operation = "*" ∨ operation = "×" then
    match randint min_val (min max_val 12) d1, randint min_val (min max_val 12) d2 with
    | Except.ok a, Except.ok b =>
        Except.ok { top := a, bottom := b, operation := "×", answer := a * b }
    | Except.error e, _ => Except.error e
    | Except.ok _, Except.error e => Except.error e
  else if operation = "/" ∨ operation = "÷" then
    match randint (max 1 min_val) (min max_val 12) d1, randint min_val (min max_val 12) d2 with
    | Except.ok b, Except.ok answer =>
        Except.ok { top := b * answer, bottom := b, operation := "÷", answer := answer }
    | Except.error e, _ => Except.error e
    | Except.ok _, Except.error e => Except.error e
  else
    Except.error ("Unknown operation: " ++ operation)

/-- Nonemptiness condition of the `randint` ranges used by each recognized
operator of `generate_problem` (the source never checks these; `randint`
raises when they fail). -/
def validRanges (op : String) (mn mx : ℤ) : Bool :=
  if op = "+" ∨ op = "-" then decide (mn ≤ mx)
  else if op = "*" ∨ op = "×" then decide (mn ≤ min mx 12)
  else decide (max 1 mn ≤ min mx 12)

/-- First normalization loop of the powers generators (source lines 178-180,
259-261, 280-282): `while result_coef >= 10: result_coef /= 10; result_exp += 1`. -/
def normUp (q : ℚ) (e : ℤ) : ℚ × ℤ :=
  if h : 10 ≤ q then normUp (q / 10) (e + 1) else (q, e)
termination_by (⌈q⌉).toNat
decreasing_by
  have h1 : ⌈q / 10⌉ ≤ ⌈q⌉ - 9 := by
    have h2 : q / 10 ≤ q - 9 := by linarith
    calc ⌈q / 10⌉ ≤ ⌈q - 9⌉ := Int.ceil_le_ceil h2
    _ = ⌈q⌉ - 9 := by
        rw [show (9:ℚ) = ((9:ℤ):ℚ) by norm_num, Int.ceil_sub_int]
  have h3 : (10:ℤ) ≤ ⌈q⌉ := by
    calc (10:ℤ) = ⌈(10:ℚ)⌉ := by norm_num
    _ ≤ ⌈q⌉ := Int.ceil_le_ceil h
  omega

/-- Second normalization loop (source lines 181-183, 262-264, 283-285):
`while 0 < result_coef < 1: result_coef *= 10; result_exp -= 1`. -/
def normDown (q : ℚ) (e : ℤ) : ℚ × ℤ :=
  if h : 0 < q ∧ q < 1 then normDown (q * 10) (e - 1) else (q, e)
termination_by (⌈1 / q⌉).toNat
decreasing_by
  obtain ⟨hq0, hq1⟩ := h
  have hx : (1:ℚ) < 1 / q := by
    rw [lt_div_iff₀ hq0]
    linarith
  have he : 1 / (q * 10) = 1 / q / 10 := by
    rw [div_div]
  rw [he]
  by_cases hc : 1 / q ≤ 10
  · have h1 : ⌈1 / q / 10⌉ ≤ 1 := by
      apply Int.ceil_le.mpr
      push_cast
      linarith
    have h2 : (2:ℤ) ≤ ⌈1 / q⌉ := by
      have h3 : (1:ℤ) < ⌈1 / q⌉ := by
        apply Int.lt_ceil.mpr
        push_cast
        exact hx
      omega
    omega
  · push_neg at hc
    have h1 : ⌈1 / q / 10⌉ ≤ ⌈1 / q⌉ - 9 := by
      have h2 : 1 / q / 10 ≤ 1 / q - 9 := by linarith
      calc ⌈1 / q / 10⌉ ≤ ⌈1 / q - 9⌉ := Int.ceil_le_ceil h2
      _ = ⌈1 / q⌉ - 9 := by
          rw [show (9:ℚ) = ((9:ℤ):ℚ) by norm_num, Int.ceil_sub_int]
    have h3 : (10:ℤ) ≤ ⌈1 / q⌉ := by
      calc (10:ℤ) = ⌈(10:ℚ)⌉ := by norm_num
      _ ≤ ⌈1 / q⌉ := Int.ceil_le_ceil (le_of_lt hc)
    omega

/-- Both normalization loops in source order (up first, then down). -/
def normalizeRaw (q : ℚ) (e : ℤ) : ℚ × ℤ :=
  normDown (normUp q e).1 (normUp q e).2

/-- `normalizeRaw` on a raw (coefficient, exponent) pair. -/
def normalizeP (p : ℚ × ℤ) : ℚ × ℤ := normalizeRaw p.1 p.2

/-- Single conditional normalization of `_generate_basic_powers_problem`
(source lines 131-134): one division by 10 when the coefficient is ≥ 10. -/
def basicNormalize (p : ℚ × ℤ) : ℚ × ℤ :=
  if 10 ≤ p.1 then (p.1 / 10, p.2 + 1) else p

/-- Modelled from the spec (section 4.1 "Core algorithm"): one step of the
normalization loop — while the coefficient is ≥ 10, divide by 10 and increment
the exponent; while it is strictly between 0 and 1, multiply by 10 and
decrement the exponent. -/
inductive NormStep : ℚ × ℤ → ℚ × ℤ → Prop where
  | up (q : ℚ) (e : ℤ) : 10 ≤ q → NormStep (q, e) (q / 10, e + 1)
  | down (q : ℚ) (e : ℤ) : 0 < q → q < 1 → NormStep (q, e) (q * 10, e - 1)

/-- A state on which the spec's normalization loop has finished. -/
def NormTerminal (p : ℚ × ℤ) : Prop := ∀ r : ℚ × ℤ, ¬ NormStep p r

/-- Python `range(lo, hi)` as a list of integers. -/
def intRange (lo hi : ℤ) : List ℤ := (List.range (hi - lo).toNat).map (fun (i : ℕ) => lo + (i : ℤ))

/-- Python `random.choice` driven by an index draw; total with default 0 on the
empty list, where Python raises IndexError (every use below is proved to be on
a nonempty list). -/
def choice (l : List ℤ) (d : ℕ) : ℤ := l.getD (d % l.length) 0

/-- Divisor candidate lists `[x for x in range(lo, hi) if p % x == 0]` used by
the intermediate divide path and the three advanced templates. -/
def divisorsInRange (lo hi p : ℤ) : List ℤ :=
  (intRange lo hi).filter (fun x => decide (p % x = 0))

/-- Half-up rounding to two decimals, modelling the `.2f` formatting of answer
coefficients; every coefficient reaching it below is an exact tenth, where all
rounding conventions agree and the decimal expansion is exact. -/
def round2 (q : ℚ) : ℚ := ((⌊q * 100 + 1 / 2⌋ : ℤ) : ℚ) / 100

/-- Rounding to `p` decimals, modelling the `abs(exp)`-decimal formatting of
the basic single-term answer (source line 109). -/
def roundToDec (p : ℕ) (q : ℚ) : ℚ := ((⌊q * 10 ^ p + 1 / 2⌋ : ℤ) : ℚ) / 10 ^ p

/-- Numeric value read back from the formatted coefficient of a scientific
answer (source lines 185-188, 266-269, 287-290): printed as `int(c)` when
`result_coef == int(result_coef)`, else printed with `.2f` and trailing
zeros/point stripped (stripping does not change the value read back). -/
def shownCoef (q : ℚ) : ℚ := if q.den = 1 then q else round2 q

/-- Raw coefficient/exponent pair of the basic two-term product template
(source lines 118-129): a, b ∈ [1,9], m, n ∈ [1,4], raw pair (a*b, m+n). -/
def basicMulRaw (da db dm dn : ℤ) : ℚ × ℤ :=
  (((draw 1 9 da * draw 1 9 db : ℤ) : ℚ), draw 1 4 dm + draw 1 4 dn)

/-- Normalized pair embedded in the basic two-term product answer
(source lines 131-139). -/
def basicMul (da db dm dn : ℤ) : ℚ × ℤ := basicNormalize (basicMulRaw da db dm dn)

/-- Value read back from the answer of the basic single-term template (source
lines 97-117): `str(int(v))` for exponent ≥ 0, else `v` printed with
`abs(exp)` decimals and trailing zeros stripped. -/
def basicSingleShown (dc de : ℤ) : ℚ :=
  if 0 ≤ draw (-3) 6 de then
    ((⌊(draw 1 9 dc : ℚ) * (10:ℚ) ^ draw (-3) 6 de⌋ : ℤ) : ℚ)
  else
    roundToDec (-draw (-3) 6 de).toNat ((draw 1 9 dc : ℚ) * (10:ℚ) ^ draw (-3) 6 de)

/-- Raw pair of the intermediate multiply template (source lines 152-161):
a, b ∈ [2,9], m, n ∈ [-3,5], raw pair (a*b, m+n). -/
def intermediateMulRaw (da db dm dn : ℤ) : ℚ × ℤ :=
  (((draw 2 9 da * draw 2 9 db : ℤ) : ℚ), draw (-3) 5 dm + draw (-3) 5 dn)

def intermediateMul (da db dm dn : ℤ) : ℚ × ℤ := normalizeP (intermediateMulRaw da db dm dn)

/-- Final (a, b) pair drawn by the intermediate divide template (source lines
163-171): a = result*b; when that exceeds 9, a is redrawn from [2,9] and b
from the divisors of a within range(1,10). -/
def intermediateDivDraws (dres db da2 : ℤ) (dc : ℕ) : ℤ × ℤ :=
  if 9 < draw 2 9 dres * draw 2 9 db then
    (draw 2 9 da2, choice (divisorsInRange 1 10 (draw 2 9 da2)) dc)
  else
    (draw 2 9 dres * draw 2 9 db, draw 2 9 db)

/-- Raw pair of the intermediate divide template (source lines 172-175):
(a / b, m - n). -/
def intermediateDivRaw (dm dn dres db da2 : ℤ) (dc : ℕ) : ℚ × ℤ :=
  (((intermediateDivDraws dres db da2 dc).1 : ℚ) / ((intermediateDivDraws dres db da2 dc).2 : ℚ),
   draw (-3) 5 dm - draw (-3) 5 dn)

def intermediateDiv (dm dn dres db da2 : ℤ) (dc : ℕ) : ℚ × ℤ :=
  normalizeP (intermediateDivRaw dm dn dres db da2 dc)

/-- Divisor chosen by the advanced fraction template (source lines 208-214):
a divisor of a*b among range(2,20) when one exists, else 1. -/
def advFractionDivisorChoice (da db : ℤ) (dc : ℕ) : ℤ :=
  if divisorsInRange 2 20 (draw 2 9 da * draw 2 8 db) = [] then 1
  else choice (divisorsInRange 2 20 (draw 2 9 da * draw 2 8 db)) dc

/-- Raw pair of the advanced fraction template (source lines 201-219):
a ∈ [2,9], b ∈ [2,8], m ∈ [2,6], n ∈ [-3,3], pair ((a*b)/c, m+n). -/
def advFractionRaw (da db dm dn : ℤ) (dc : ℕ) : ℚ × ℤ :=
  (((draw 2 9 da * draw 2 8 db : ℤ) : ℚ) / ((advFractionDivisorChoice da db dc : ℤ) : ℚ),
   draw 2 6 dm + draw (-3) 3 dn)

def advFraction (da db dm dn : ℤ) (dc : ℕ) : ℚ × ℤ :=
  normalizeP (advFractionRaw da db dm dn dc)

/-- Divisor chosen by the advanced multi-term template (source lines 229-231):
a divisor of a*b among range(2,10) when one exists, else a draw from [2,5]. -/
def advMultiDivisorChoice (da db dcf : ℤ) (dc : ℕ) : ℤ :=
  if divisorsInRange 2 10 (draw 2 9 da * draw 2 9 db) = [] then draw 2 5 dcf
  else choice (divisorsInRange 2 10 (draw 2 9 da * draw 2 9 db)) dc

/-- Raw pair of the advanced multi-term template (source lines 221-236):
a, b ∈ [2,9], m ∈ [2,5], n ∈ [-2,3], p ∈ [-2,4], pair ((a*b)/c, m+n-p). -/
def advMultiRaw (da db dm dn dp dcf : ℤ) (dc : ℕ) : ℚ × ℤ :=
  (((draw 2 9 da * draw 2 9 db : ℤ) : ℚ) / ((advMultiDivisorChoice da db dcf dc : ℤ) : ℚ),
   draw 2 5 dm + draw (-2) 3 dn - draw (-2) 4 dp)

def advMulti (da db dm dn dp dcf : ℤ) (dc : ℕ) : ℚ × ℤ :=
  normalizeP (advMultiRaw da db dm dn dp dcf dc)

/-- Divisor chosen by the advanced complex-fraction template (source lines
244-246): a divisor of a*b among range(2,12) when one exists, else a draw
from [2,6]. -/
def advComplexDivisorChoice (da db dcf : ℤ) (dc : ℕ) : ℤ :=
  if divisorsInRange 2 12 (draw 2 9 da * draw 2 9 db) = [] then draw 2 6 dcf
  else choice (divisorsInRange 2 12 (draw 2 9 da * draw 2 9 db)) dc

/-- Raw pair of the advanced complex-fraction template (source lines 238-256):
a, b ∈ [2,9], m ∈ [3,6], n ∈ [-2,3], p ∈ [1,4], pair ((a*b)/c, m+n-p). -/
def advComplexRaw (da db dm dn dp dcf : ℤ) (dc : ℕ) : ℚ × ℤ :=
  (((draw 2 9 da * draw 2 9 db : ℤ) : ℚ) / ((advComplexDivisorChoice da db dcf dc : ℤ) : ℚ),
   draw 3 6 dm + draw (-2) 3 dn - draw 1 4 dp)

def advComplex (da db dm dn dp dcf : ℤ) (dc : ℕ) : ℚ × ℤ :=
  normalizeP (advComplexRaw da db dm dn dp dcf dc)

/-- Inner `for col in range(...)` placement loop of the worksheet renderers
(source lines 445-466 and 557-581): place a cell per column, breaking when
`problem_idx >= num_problems`.  Arguments: remaining columns, current column,
current problem index; emits (row, col, problem_idx) cells. -/
def colLoop (num row : ℕ) : ℕ → ℕ → ℕ → List (ℕ × ℕ × ℕ)
  | 0, _, _ => []
  | rem + 1, col, idx =>
    if num ≤ idx then []
    else (row, col, idx) :: colLoop num row rem (col + 1) (idx + 1)

/-- Outer `for row in range(...)` loop (source lines 444-469 and 556-584):
run the column loop per row, then break when all problems are placed. -/
def rowLoop (num cols : ℕ) : ℕ → ℕ → ℕ → List (ℕ × ℕ × ℕ)
  | 0, _, _ => []
  | rem + 1, row, idx =>
    if num ≤ idx + (colLoop num row cols 0 idx).length then colLoop num row cols 0 idx
    else
      colLoop num row cols 0 idx ++
        rowLoop num cols rem (row + 1) (idx + (colLoop num row cols 0 idx).length)

/-- Page emission loop `while problem_idx < num_problems` (source lines 439-472
and 553-587): one grid page per iteration.  When the grid is degenerate
(`rows * cols = 0`) Python would loop forever; modelled as `[]` there, which is
unreachable for the 6×5 and 5×2 grids actually used. -/
def pageLoop (num cols rows idx : ℕ) : List (List (ℕ × ℕ × ℕ)) :=
  if _h1 : idx < num then
    if _h2 : 0 < (rowLoop num cols rows 0 idx).length then
      rowLoop num cols rows 0 idx ::
        pageLoop num cols rows (idx + (rowLoop num cols rows 0 idx).length)
    else []
  else []
termination_by num - idx
decreasing_by omega

/-- Pages emitted by `generate_worksheet` (source lines 390-506): the problem
pass on the 6-row × 5-column grid, followed by an identical answer-key pass
when `show_answers` is set (source lines 475-502). -/
def generate_worksheet_pages (num_problems : ℕ) (show_answers : Bool) :
    List (List (ℕ × ℕ × ℕ)) :=
  pageLoop num_problems 5 6 0 ++ (if show_answers then pageLoop num_problems 5 6 0 else [])

/-- Pages emitted by `generate_powers_worksheet` (source lines 508-621): the
5-row × 2-column grid, with the identical answer-key pass (lines 590-617). -/
def generate_powers_pages (num_problems : ℕ) (show_answers : Bool) :
    List (List (ℕ × ℕ × ℕ)) :=
  pageLoop num_problems 2 5 0 ++ (if show_answers then pageLoop num_problems 2 5 0 else [])

/-- The `total_pages` computation of both renderers (source lines 419-422 and
534-536): `(num + ppp - 1) // ppp`, doubled when answers are shown. -/
def total_pages (num ppp : ℕ) (show_answers : Bool) : ℕ :=
  (if show_answers then 2 else 1) * ((num + ppp - 1) / ppp)

/-- Row-major reference layout: `ceil(num / ppp)` pages, page `p` holding
cells `(k / cols, k % cols, ppp * p + k)` for `k < min ppp (num - ppp * p)`. -/
def rowMajorPages (cols ppp num : ℕ) : List (List (ℕ × ℕ × ℕ)) :=
  (List.range ((num + ppp - 1) / ppp)).map (fun p =>
    (List.range (min ppp (num - ppp * p))).map (fun k => (k / cols, k % cols, ppp * p + k)))

theorem draw_mem (lo hi d : ℤ) (h : lo ≤ hi) : lo ≤ draw lo hi d ∧ draw lo hi d ≤ hi := by
  have h1 : 0 ≤ d % (hi - lo + 1) := Int.emod_nonneg d (by omega)
  have h2 : d % (hi - lo + 1) < hi - lo + 1 := Int.emod_lt_of_pos d (by omega)
  unfold draw
  omega

theorem randint_ok (lo hi d x : ℤ) (h : randint lo hi d = Except.ok x) :
    lo ≤ hi ∧ lo ≤ x ∧ x ≤ hi := by
  unfold randint at h
  split at h
  · exact absurd h (by simp)
  · next hc =>
    have hb := draw_mem lo hi d (by omega)
    simp only [Except.ok.injEq] at h
    omega

theorem randint_ok_of_le (lo hi d : ℤ) (h : lo ≤ hi) :
    randint lo hi d = Except.ok (draw lo hi d) := by
  unfold randint
  rw [if_neg (by omega)]

/-- C1: every record produced for `'÷'` / `'/'` satisfies `top = bottom * answer`
exactly and `bottom > 0` (the divisor range starts at `max 1 min_val`). -/
theorem C1_division_exact (op : String) (mn mx : ℤ) (ang : Bool) (d1 d2 : ℤ) (p : Problem)
    (hop : op = "÷" ∨ op = "/")
    (h : generate_problem op mn mx ang d1 d2 = Except.ok p) :
    p.top = p.bottom * p.answer ∧ 0 < p.bottom := by
  have key : ∀ q : Problem,
      (match randint (max 1 mn) (min mx 12) d1, randint mn (min mx 12) d2 with
       | Except.ok b, Except.ok answer =>
           Except.ok { top := b * answer, bottom := b, operation := "÷", answer := answer }
       | Except.error e, _ => Except.error e
       | Except.ok _, Except.error e => Except.error e) = Except.ok q →
      q.top = q.bottom * q.answer ∧ 0 < q.bottom := by
    intro q hq
    split at hq
    · next b ans hb hans =>
      have hb2 := randint_ok _ _ _ _ hb
      simp only [Except.ok.injEq] at hq
      subst hq
      refine ⟨rfl, ?_⟩
      have : (1:ℤ) ≤ max 1 mn := le_max_left 1 mn
      simp only
      omega
    · exact absurd hq (by simp)
    · exact absurd hq (by simp)
  rcases hop with rfl | rfl
  · exact key p h
  · exact key p h

theorem C1_division_exact_witness :
    generate_problem "÷" 2 12 false 0 0 =
      Except.ok { top := 4, bottom := 2, operation := "÷", answer := 2 } ∧
    ((4:ℤ) = 2 * 2 ∧ (0:ℤ) < 2) := by
  refine ⟨by rfl, ?_⟩
  exact C1_division_exact "÷" 2 12 false 0 0
    { top := 4, bottom := 2, operation := "÷", answer := 2 } (Or.inl rfl) (by rfl)

/-- C3: subtraction with negative results disallowed draws the subtrahend from
[min_val, minuend], so `top ≥ bottom` and the answer is nonnegative. -/
theorem C3_subtraction_nonneg (mn mx : ℤ) (d1 d2 : ℤ) (p : Problem)
    (h : generate_problem "-" mn mx false d1 d2 = Except.ok p) :
    p.bottom ≤ p.top ∧ 0 ≤ p.answer := by
  have h2 : (match randint mn mx d1 with
      | Except.error e => Except.error e
      | Except.ok a =>
          match randint mn a d2 with
          | Except.error e => Except.error e
          | Except.ok b =>
              Except.ok { top := a, bottom := b, operation := "-", answer := a - b }) =
      Except.ok p := h
  split at h2
  · exact absurd h2 (by simp)
  · next a ha =>
    split at h2
    · exact absurd h2 (by simp)
    · next b hb =>
      have hb2 := randint_ok _ _ _ _ hb
      simp only [Except.ok.injEq] at h2
      subst h2
      simp only
      omega

theorem C3_subtraction_nonneg_witness :
    generate_problem "-" 1 9 false 0 0 =
      Except.ok { top := 1, bottom := 1, operation := "-", answer := 0 } ∧
    ((1:ℤ) ≤ 1 ∧ (0:ℤ) ≤ 0) := by
  refine ⟨by rfl, ?_⟩
  exact C3_subtraction_nonneg 1 9 0 0
    { top := 1, bottom := 1, operation := "-", answer := 0 } (by rfl)

/-- C9: every returned record carries a display token from {+, -, ×, ÷}; the
ASCII aliases `*` and `/` are canonicalized to `×` and `÷`. -/
theorem C9_operation_canonical (op : String) (mn mx : ℤ) (ang : Bool) (d1 d2 : ℤ) (p : Problem)
    (h : generate_problem op mn mx ang d1 d2 = Except.ok p) :
    (p.operation = "+" ∨ p.operation = "-" ∨ p.operation = "×" ∨ p.operation = "÷") ∧
    (op = "*" → p.operation = "×") ∧ (op = "/" → p.operation = "÷") := by
  unfold generate_problem at h
  repeat' split at h
  all_goals try exact Except.noConfusion h
  all_goals injection h with h
  all_goals subst h
  all_goals refine ⟨by simp, ?_, ?_⟩
  all_goals intro hh
  all_goals first
    | rfl
    | simp_all

theorem C9_operation_canonical_witness :
    generate_problem "/" 1 99 false 0 0 =
      Except.ok { top := 1, bottom := 1, operation := "÷", answer := 1 } ∧
    ((("÷" : String) = "+" ∨ ("÷" : String) = "-" ∨ ("÷" : String) = "×" ∨
        ("÷" : String) = "÷") ∧
      (("/" : String) = "*" → ("÷" : String) = "×") ∧
      (("/" : String) = "/" → ("÷" : String) = "÷")) := by
  refine ⟨by rfl, ?_⟩
  exact C9_operation_canonical "/" 1 99 false 0 0
    { top := 1, bottom := 1, operation := "÷", answer := 1 } (by rfl)

/-- C10: for × and ÷ the drawn factors are clamped to at most `min max_val 12`
(for multiplication both operands, for division the divisor and the quotient),
hence never exceed 12. -/
theorem C10_factor_clamp (op : String) (mn mx : ℤ) (ang : Bool) (d1 d2 : ℤ) (p : Problem) :
    ((op = "×" ∨ op = "*") → generate_problem op mn mx ang d1 d2 = Except.ok p →
      p.top ≤ min mx 12 ∧ p.bottom ≤ min mx 12 ∧ p.top ≤ 12 ∧ p.bottom ≤ 12) ∧
    ((op = "÷" ∨ op = "/") → generate_problem op mn mx ang d1 d2 = Except.ok p →
      p.bottom ≤ min mx 12 ∧ p.answer ≤ min mx 12 ∧ p.bottom ≤ 12 ∧ p.answer ≤ 12) := by
  constructor
  · have key : ∀ q : Problem,
        (match randint mn (min mx 12) d1, randint mn (min mx 12) d2 with
         | Except.ok a, Except.ok b =>
             Except.ok { top := a, bottom := b, operation := "×", answer := a * b }
         | Except.error e, _ => Except.error e
         | Except.ok _, Except.error e => Except.error e) = Except.ok q →
        q.top ≤ min mx 12 ∧ q.bottom ≤ min mx 12 ∧ q.top ≤ 12 ∧ q.bottom ≤ 12 := by
      intro q hq
      split at hq
      · next a b ha hb =>
        have ha2 := randint_ok _ _ _ _ ha
        have hb2 := randint_ok _ _ _ _ hb
        simp only [Except.ok.injEq] at hq
        subst hq
        simp only
        omega
      · exact absurd hq (by simp)
      · exact absurd hq (by simp)
    rintro (rfl | rfl) h
    · exact key p h
    · exact key p h
  · have key : ∀ q : Problem,
        (match randint (max 1 mn) (min mx 12) d1, randint mn (min mx 12) d2 with
         | Except.ok b, Except.ok answer =>
             Except.ok { top := b * answer, bottom := b, operation := "÷", answer := answer }
         | Except.error e, _ => Except.error e
         | Except.ok _, Except.error e => Except.error e) = Except.ok q →
        q.bottom ≤ min mx 12 ∧ q.answer ≤ min mx 12 ∧ q.bottom ≤ 12 ∧ q.answer ≤ 12 := by
      intro q hq
      split at hq
      · next b ans hb hans =>
        have hb2 := randint_ok _ _ _ _ hb
        have hans2 := randint_ok _ _ _ _ hans
        simp only [Except.ok.injEq] at hq
        subst hq
        simp only
        omega
      · exact absurd hq (by simp)
      · exact absurd hq (by simp)
    rintro (rfl | rfl) h
    · exact key p h
    · exact key p h

theorem C10_factor_clamp_witness :
    generate_problem "×" 2 99 false 0 0 =
      Except.ok { top := 2, bottom := 2, operation := "×", answer := 4 } ∧
    ((2:ℤ) ≤ min 99 12 ∧ (2:ℤ) ≤ min 99 12 ∧ (2:ℤ) ≤ 12 ∧ (2:ℤ) ≤ 12) := by
  refine ⟨by rfl, ?_⟩
  exact (C10_factor_clamp "×" 2 99 false 0 0
    { top := 2, bottom := 2, operation := "×", answer := 4 }).1 (Or.inl rfl) (by rfl)

/-- C4 (counterexample): a recognized operator can also fail — with an empty
requested range the underlying `randint` raises, so an unrecognized token is
not the only error condition. -/
theorem C4_only_error_counterexample :
    generate_problem "+" 5 3 false 0 0 = Except.error "empty range in randrange()" := by
  rfl

theorem randint_err (lo hi d : ℤ) (h : hi < lo) :
    randint lo hi d = Except.error "empty range in randrange()" := by
  unfold randint
  rw [if_pos h]

theorem gen_plus_ok (mn mx : ℤ) (ang : Bool) (d1 d2 : ℤ) (hr : mn ≤ mx) :
    generate_problem "+" mn mx ang d1 d2 = Except.ok
      { top := draw mn mx d1, bottom := draw mn mx d2, operation := "+",
        answer := draw mn mx d1 + draw mn mx d2 } := by
  have e : generate_problem "+" mn mx ang d1 d2 =
      (match randint mn mx d1, randint mn mx d2 with
       | Except.ok a, Except.ok b =>
           Except.ok { top := a, bottom := b, operation := "+", answer := a + b }
       | Except.error e, _ => Except.error e
       | Except.ok _, Except.error e => Except.error e) := rfl
  rw [e, randint_ok_of_le _ _ d1 hr, randint_ok_of_le _ _ d2 hr]

theorem gen_plus_err (mn mx : ℤ) (ang : Bool) (d1 d2 : ℤ) (hr : mx < mn) :
    generate_problem "+" mn mx ang d1 d2 = Except.error "empty range in randrange()" := by
  have e : generate_problem "+" mn mx ang d1 d2 =
      (match randint mn mx d1, randint mn mx d2 with
       | Except.ok a, Except.ok b =>
           Except.ok { top := a, bottom := b, operation := "+", answer := a + b }
       | Except.error e, _ => Except.error e
       | Except.ok _, Except.error e => Except.error e) := rfl
  rw [e, randint_err _ _ d1 hr]

theorem gen_sub_ok_t (mn mx : ℤ) (d1 d2 : ℤ) (hr : mn ≤ mx) :
    generate_problem "-" mn mx true d1 d2 = Except.ok
      { top := draw mn mx d1, bottom := draw mn mx d2, operation := "-",
        answer := draw mn mx d1 - draw mn mx d2 } := by
  have e : generate_problem "-" mn mx true d1 d2 =
      (match randint mn mx d1, randint mn mx d2 with
       | Except.ok a, Except.ok b =>
           Except.ok { top := a, bottom := b, operation := "-", answer := a - b }
       | Except.error e, _ => Except.error e
       | Except.ok _, Except.error e => Except.error e) := rfl
  rw [e, randint_ok_of_le _ _ d1 hr, randint_ok_of_le _ _ d2 hr]

theorem gen_sub_ok_f (mn mx : ℤ) (d1 d2 : ℤ) (hr : mn ≤ mx) :
    generate_problem "-" mn mx false d1 d2 = Except.ok
      { top := draw mn mx d1, bottom := draw mn (draw mn mx d1) d2, operation := "-",
        answer := draw mn mx d1 - draw mn (draw mn mx d1) d2 } := by
  have e : generate_problem "-" mn mx false d1 d2 =
      (match randint mn mx d1 with
       | Except.error e => Except.error e
       | Except.ok a =>
           match randint mn a d2 with
           | Except.error e => Except.error e
           | Except.ok b =>
               Except.ok { top := a, bottom := b, operation := "-", answer := a - b }) := rfl
  rw [e, randint_ok_of_le _ _ d1 hr]
  show (match randint mn (draw mn mx d1) d2 with
       | Except.error e => (Except.error e : Except String Problem)
       | Except.ok b =>
           Except.ok { top := draw mn mx d1, bottom := b, operation := "-",
                       answer := draw mn mx d1 - b }) = _
  rw [randint_ok_of_le _ _ d2 (draw_mem mn mx d1 hr).1]

theorem gen_sub_err (mn mx : ℤ) (ang : Bool) (d1 d2 : ℤ) (hr : mx < mn) :
    generate_problem "-" mn mx ang d1 d2 = Except.error "empty range in randrange()" := by
  cases ang
  · have e : generate_problem "-" mn mx false d1 d2 =
        (match randint mn mx d1 with
         | Except.error e => Except.error e
         | Except.ok a =>
             match randint mn a d2 with
             | Except.error e => Except.error e
             | Except.ok b =>
                 Except.ok { top := a, bottom := b, operation := "-", answer := a - b }) := rfl
    rw [e, randint_err _ _ d1 hr]
  · have e : generate_problem "-" mn mx true d1 d2 =
        (match randint mn mx d1, randint mn mx d2 with
         | Except.ok a, Except.ok b =>
             Except.ok { top := a, bottom := b, operation := "-", answer := a - b }
         | Except.error e, _ => Except.error e
         | Except.ok _, Except.error e => Except.error e) := rfl
    rw [e, randint_err _ _ d1 hr]

theorem gen_times_ok (op : String) (hop : op = "*" ∨ op = "×") (mn mx : ℤ) (ang : Bool)
    (d1 d2 : ℤ) (hr : mn ≤ min mx 12) :
    generate_problem op mn mx ang d1 d2 = Except.ok
      { top := draw mn (min mx 12) d1, bottom := draw mn (min mx 12) d2, operation := "×",
        answer := draw mn (min mx 12) d1 * draw mn (min mx 12) d2 } := by
  have key : ∀ u v : Except String ℤ, u = randint mn (min mx 12) d1 →
      v = randint mn (min mx 12) d2 →
      (match u, v with
       | Except.ok a, Except.ok b =>
           Except.ok { top := a, bottom := b, operation := "×", answer := a * b }
       | Except.error e, _ => (Except.error e : Except String Problem)
       | Except.ok _, Except.error e => Except.error e) = Except.ok
      { top := draw mn (min mx 12) d1, bottom := draw mn (min mx 12) d2, operation := "×",
        answer := draw mn (min mx 12) d1 * draw mn (min mx 12) d2 } := by
    intro u v hu hv
    rw [hu, hv, randint_ok_of_le _ _ d1 hr, randint_ok_of_le _ _ d2 hr]
  rcases hop with rfl | rfl
  · exact key _ _ rfl rfl
  · exact key _ _ rfl rfl

theorem gen_times_err (op : String) (hop : op = "*" ∨ op = "×") (mn mx : ℤ) (ang : Bool)
    (d1 d2 : ℤ) (hr : min mx 12 < mn) :
    generate_problem op mn mx ang d1 d2 = Except.error "empty range in randrange()" := by
  have key : ∀ u v : Except String ℤ, u = randint mn (min mx 12) d1 →
      (match u, v with
       | Except.ok a, Except.ok b =>
           Except.ok { top := a, bottom := b, operation := "×", answer := a * b }
       | Except.error e, _ => (Except.error e : Except String Problem)
       | Except.ok _, Except.error e => Except.error e) =
      Except.error "empty range in randrange()" := by
    intro u v hu
    rw [hu, randint_err _ _ d1 hr]
  rcases hop with rfl | rfl
  · exact key _ _ rfl
  · exact key _ _ rfl

theorem gen_div_ok (op : String) (hop : op = "/" ∨ op = "÷") (mn mx : ℤ) (ang : Bool)
    (d1 d2 : ℤ) (hr : max 1 mn ≤ min mx 12) :
    generate_problem op mn mx ang d1 d2 = Except.ok
      { top := draw (max 1 mn) (min mx 12) d1 * draw mn (min mx 12) d2,
        bottom := draw (max 1 mn) (min mx 12) d1, operation := "÷",
        answer := draw mn (min mx 12) d2 } := by
  have hr2 : mn ≤ min mx 12 := le_trans (le_max_right 1 mn) hr
  have key : ∀ u v : Except String ℤ, u = randint (max 1 mn) (min mx 12) d1 →
      v = randint mn (min mx 12) d2 →
      (match u, v with
       | Except.ok b, Except.ok answer =>
           Except.ok { top := b * answer, bottom := b, operation := "÷", answer := answer }
       | Except.error e, _ => (Except.error e : Except String Problem)
       | Except.ok _, Except.error e => Except.error e) = Except.ok
      { top := draw (max 1 mn) (min mx 12) d1 * draw mn (min mx 12) d2,
        bottom := draw (max 1 mn) (min mx 12) d1, operation := "÷",
        answer := draw mn (min mx 12) d2 } := by
    intro u v hu hv
    rw [hu, hv, randint_ok_of_le _ _ d1 hr, randint_ok_of_le _ _ d2 hr2]
  rcases hop with rfl | rfl
  · exact key _ _ rfl rfl
  · exact key _ _ rfl rfl

theorem gen_div_err (op : String) (hop : op = "/" ∨ op = "÷") (mn mx : ℤ) (ang : Bool)
    (d1 d2 : ℤ) (hr : min mx 12 < max 1 mn) :
    generate_problem op mn mx ang d1 d2 = Except.error "empty range in randrange()" := by
  have key : ∀ u v : Except String ℤ, u = randint (max 1 mn) (min mx 12) d1 →
      (match u, v with
       | Except.ok b, Except.ok answer =>
           Except.ok { top := b * answer, bottom := b, operation := "÷", answer := answer }
       | Except.error e, _ => (Except.error e : Except String Problem)
       | Except.ok _, Except.error e => Except.error e) =
      Except.error "empty range in randrange()" := by
    intro u v hu
    rw [hu, randint_err _ _ d1 hr]
  rcases hop with rfl | rfl
  · exact key _ _ rfl
  · exact key _ _ rfl

theorem gen_unknown (op : String) (mn mx : ℤ) (ang : Bool) (d1 d2 : ℤ)
    (h1 : ¬op = "+") (h2 : ¬op = "-") (h3 : ¬op = "*") (h4 : ¬op = "×")
    (h5 : ¬op = "/") (h6 : ¬op = "÷") :
    generate_problem op mn mx ang d1 d2 = Except.error ("Unknown operation: " ++ op) := by
  unfold generate_problem
  rw [if_neg h1, if_neg h2, if_neg (by tauto), if_neg (by tauto)]

/-- C4 (amended): `generate_problem` fails with the descriptive
"Unknown operation" error exactly on unrecognized tokens; a recognized operator
returns a record if and only if the requested `randint` ranges are nonempty
(`min_val ≤ max_val` for + and -, `min_val ≤ min max_val 12` for × and *,
`max 1 min_val ≤ min max_val 12` for ÷ and /), and raises the empty-range
error otherwise. -/
theorem C4_error_conditions (op : String) (mn mx : ℤ) (ang : Bool) (d1 d2 : ℤ) :
    ((∃ p, generate_problem op mn mx ang d1 d2 = Except.ok p) ↔
      ((op = "+" ∨ op = "-" ∨ op = "*" ∨ op = "×" ∨ op = "/" ∨ op = "÷") ∧
        validRanges op mn mx = true)) ∧
    ((¬(op = "+" ∨ op = "-" ∨ op = "*" ∨ op = "×" ∨ op = "/" ∨ op = "÷")) →
      generate_problem op mn mx ang d1 d2 = Except.error ("Unknown operation: " ++ op)) := by
  constructor
  · by_cases h1 : op = "+"
    · subst h1
      have hv_eq : validRanges "+" mn mx = decide (mn ≤ mx) := by
        unfold validRanges
        rw [if_pos (Or.inl rfl)]
      constructor
      · rintro ⟨p, hp⟩
        refine ⟨by simp, ?_⟩
        rw [hv_eq, decide_eq_true_eq]
        by_contra hr
        rw [gen_plus_err mn mx ang d1 d2 (by omega)] at hp
        exact Except.noConfusion hp
      · rintro ⟨-, hv⟩
        rw [hv_eq, decide_eq_true_eq] at hv
        exact ⟨_, gen_plus_ok mn mx ang d1 d2 hv⟩
    · by_cases h2 : op = "-"
      · subst h2
        have hv_eq : validRanges "-" mn mx = decide (mn ≤ mx) := by
          unfold validRanges
          rw [if_pos (Or.inr rfl)]
        constructor
        · rintro ⟨p, hp⟩
          refine ⟨by simp, ?_⟩
          rw [hv_eq, decide_eq_true_eq]
          by_contra hr
          rw [gen_sub_err mn mx ang d1 d2 (by omega)] at hp
          exact Except.noConfusion hp
        · rintro ⟨-, hv⟩
          rw [hv_eq, decide_eq_true_eq] at hv
          cases ang
          · exact ⟨_, gen_sub_ok_f mn mx d1 d2 hv⟩
          · exact ⟨_, gen_sub_ok_t mn mx d1 d2 hv⟩
      · by_cases h3 : op = "*" ∨ op = "×"
        · have hv_eq : validRanges op mn mx = decide (mn ≤ min mx 12) := by
            unfold validRanges
            rw [if_neg (by rcases h3 with rfl | rfl <;> simp), if_pos h3]
          constructor
          · rintro ⟨p, hp⟩
            refine ⟨by tauto, ?_⟩
            rw [hv_eq, decide_eq_true_eq]
            by_contra hr
            rw [gen_times_err op h3 mn mx ang d1 d2 (by omega)] at hp
            exact Except.noConfusion hp
          · rintro ⟨-, hv⟩
            rw [hv_eq, decide_eq_true_eq] at hv
            exact ⟨_, gen_times_ok op h3 mn mx ang d1 d2 hv⟩
        · by_cases h4 : op = "/" ∨ op = "÷"
          · have hv_eq : validRanges op mn mx = decide (max 1 mn ≤ min mx 12) := by
              unfold validRanges
              rw [if_neg (by rcases h4 with rfl | rfl <;> simp),
                if_neg (by rcases h4 with rfl | rfl <;> simp)]
            constructor
            · rintro ⟨p, hp⟩
              refine ⟨by tauto, ?_⟩
              rw [hv_eq, decide_eq_true_eq]
              by_contra hr
              rw [gen_div_err op h4 mn mx ang d1 d2 (by omega)] at hp
              exact Except.noConfusion hp
            · rintro ⟨-, hv⟩
              rw [hv_eq, decide_eq_true_eq] at hv
              exact ⟨_, gen_div_ok op h4 mn mx ang d1 d2 hv⟩
          · have e := gen_unknown op mn mx ang d1 d2 h1 h2 (by tauto) (by tauto)
              (by tauto) (by tauto)
            constructor
            · rintro ⟨p, hp⟩
              rw [e] at hp
              exact Except.noConfusion hp
            · rintro ⟨hmem, -⟩
              tauto
  · intro hmem
    push_neg at hmem
    obtain ⟨h1, h2, h3, h4, h5, h6⟩ := hmem
    exact gen_unknown op mn mx ang d1 d2 h1 h2 h3 h4 h5 h6

theorem C4_error_conditions_witness :
    (¬(("%" : String) = "+" ∨ ("%" : String) = "-" ∨ ("%" : String) = "*" ∨
        ("%" : String) = "×" ∨ ("%" : String) = "/" ∨ ("%" : String) = "÷")) ∧
    generate_problem "%" 1 9 false 0 0 = Except.error ("Unknown operation: " ++ "%") :=
  ⟨by decide, (C4_error_conditions "%" 1 9 false 0 0).2 (by decide)⟩

theorem normUp_unfold (q : ℚ) (e : ℤ) :
    normUp q e = if 10 ≤ q then normUp (q / 10) (e + 1) else (q, e) := by
  rw [normUp]
  split <;> rfl

theorem normDown_unfold (q : ℚ) (e : ℤ) :
    normDown q e = if 0 < q ∧ q < 1 then normDown (q * 10) (e - 1) else (q, e) := by
  rw [normDown]
  split <;> rfl

theorem normUp_spec (q : ℚ) (e : ℤ) :
    (normUp q e).1 < 10 ∧
    (normUp q e).1 * (10:ℚ) ^ (normUp q e).2 = q * (10:ℚ) ^ e ∧
    (0 < q → 0 < (normUp q e).1) ∧
    (1 ≤ q → 1 ≤ (normUp q e).1) ∧
    Relation.ReflTransGen NormStep (q, e) (normUp q e) := by
  induction q, e using normUp.induct with
  | case1 q e h ih =>
    rw [normUp_unfold, if_pos h]
    obtain ⟨ih1, ih2, ih3, ih4, ih5⟩ := ih
    refine ⟨ih1, ?_, ?_, ?_, ?_⟩
    · rw [ih2, zpow_add_one₀ (by norm_num : (10:ℚ) ≠ 0)]
      ring
    · intro hq
      exact ih3 (by linarith)
    · intro hq
      exact ih4 (by linarith)
    · exact Relation.ReflTransGen.head (NormStep.up q e h) ih5
  | case2 q e h =>
    rw [normUp_unfold, if_neg h]
    refine ⟨by simpa using h, rfl, fun hq => hq, fun hq => hq, Relation.ReflTransGen.refl⟩

theorem normDown_spec (q : ℚ) (e : ℤ) :
    (q < 10 → (normDown q e).1 < 10) ∧
    (normDown q e).1 * (10:ℚ) ^ (normDown q e).2 = q * (10:ℚ) ^ e ∧
    (0 < q → 1 ≤ (normDown q e).1) ∧
    (¬(0 < (normDown q e).1 ∧ (normDown q e).1 < 1)) ∧
    Relation.ReflTransGen NormStep (q, e) (normDown q e) := by
  induction q, e using normDown.induct with
  | case1 q e h ih =>
    obtain ⟨hq0, hq1⟩ := h
    rw [normDown_unfold, if_pos ⟨hq0, hq1⟩]
    obtain ⟨ih1, ih2, ih3, ih4, ih5⟩ := ih
    refine ⟨fun _ => ih1 (by linarith), ?_, fun _ => ih3 (by linarith), ih4, ?_⟩
    · rw [ih2, zpow_sub_one₀ (by norm_num : (10:ℚ) ≠ 0)]
      ring
    · exact Relation.ReflTransGen.head (NormStep.down q e hq0 hq1) ih5
  | case2 q e h =>
    rw [normDown_unfold, if_neg h]
    exact ⟨fun hq => hq, rfl, fun hq => by
      rcases not_and_or.mp h with h1 | h1
      · exact absurd hq h1
      · linarith [not_lt.mp h1], h, Relation.ReflTransGen.refl⟩

theorem normalize_coef_lt (q : ℚ) (e : ℤ) : (normalizeRaw q e).1 < 10 :=
  (normDown_spec (normUp q e).1 (normUp q e).2).1 (normUp_spec q e).1

theorem normalize_coef_ge_one (q : ℚ) (e : ℤ) (h : 0 < q) : 1 ≤ (normalizeRaw q e).1 :=
  (normDown_spec (normUp q e).1 (normUp q e).2).2.2.1 ((normUp_spec q e).2.2.1 h)

theorem normalize_value (q : ℚ) (e : ℤ) :
    (normalizeRaw q e).1 * (10:ℚ) ^ (normalizeRaw q e).2 = q * (10:ℚ) ^ e := by
  unfold normalizeRaw
  rw [(normDown_spec (normUp q e).1 (normUp q e).2).2.1, (normUp_spec q e).2.1]

theorem normalize_not_small (q : ℚ) (e : ℤ) :
    ¬(0 < (normalizeRaw q e).1 ∧ (normalizeRaw q e).1 < 1) :=
  (normDown_spec (normUp q e).1 (normUp q e).2).2.2.2.1

theorem normalize_reaches (q : ℚ) (e : ℤ) :
    Relation.ReflTransGen NormStep (q, e) (normalizeRaw q e) := by
  have h1 := (normUp_spec q e).2.2.2.2
  have h2 := (normDown_spec (normUp q e).1 (normUp q e).2).2.2.2.2
  unfold normalizeRaw
  exact Relation.ReflTransGen.trans h1 h2

theorem normalize_terminal (q : ℚ) (e : ℤ) : NormTerminal (normalizeRaw q e) := by
  intro r hstep
  have hlt := normalize_coef_lt q e
  have hns := normalize_not_small q e
  rcases hn : normalizeRaw q e with ⟨c, ex⟩
  rw [hn] at hstep hlt hns
  cases hstep with
  | up _ _ h10 => exact absurd h10 (by simpa using hlt)
  | down _ _ h0 h1 => exact hns ⟨h0, h1⟩

theorem normStep_det (p a b : ℚ × ℤ) (h1 : NormStep p a) (h2 : NormStep p b) : a = b := by
  cases h1 with
  | up q e hq =>
    cases h2 with
    | up _ _ _ => rfl
    | down _ _ hx hy => linarith
  | down q e hx hy =>
    cases h2 with
    | up _ _ hq => linarith
    | down _ _ _ _ => rfl

theorem terminal_reaches_eq (s t : ℚ × ℤ) (hs : NormTerminal s)
    (h : Relation.ReflTransGen NormStep s t) : t = s := by
  induction h with
  | refl => rfl
  | tail hab hbc ih =>
    subst ih
    exact absurd hbc (hs _)

theorem reaches_terminal_unique (s t1 t2 : ℚ × ℤ)
    (h1 : Relation.ReflTransGen NormStep s t1) (ht1 : NormTerminal t1)
    (h2 : Relation.ReflTransGen NormStep s t2) (ht2 : NormTerminal t2) : t1 = t2 := by
  induction h1 using Relation.ReflTransGen.head_induction_on with
  | refl => exact (terminal_reaches_eq _ _ ht1 h2).symm
  | head step tl ih =>
    rcases Relation.ReflTransGen.cases_head h2 with heq | ⟨d, hd, hdt⟩
    · subst heq
      exact absurd step (ht2 _)
    · have hcd := normStep_det _ _ _ step hd
      rw [← hcd] at hdt
      exact ih hdt

theorem normUp_of_lt (q : ℚ) (e : ℤ) (h : q < 10) : normUp q e = (q, e) := by
  rw [normUp_unfold, if_neg (by linarith)]

theorem normDown_of_one_le (q : ℚ) (e : ℤ) (h : 1 ≤ q) : normDown q e = (q, e) := by
  rw [normDown_unfold, if_neg (by rintro ⟨hx, hy⟩; linarith)]

theorem normalize_int_eq (n : ℤ) (e : ℤ) (h1 : 1 ≤ n) (h2 : n < 100) :
    normalizeRaw (n:ℚ) e =
      if 10 ≤ (n:ℚ) then ((n:ℚ) / 10, e + 1) else ((n:ℚ), e) := by
  have hn100 : (n:ℚ) < 100 := by exact_mod_cast h2
  have hn1 : (1:ℚ) ≤ (n:ℚ) := by exact_mod_cast h1
  by_cases h : (10:ℚ) ≤ (n:ℚ)
  · rw [if_pos h]
    unfold normalizeRaw
    rw [normUp_unfold, if_pos h, normUp_of_lt _ _ (by linarith),
      normDown_of_one_le _ _ (by rw [le_div_iff₀ (by norm_num : (0:ℚ) < 10)]; linarith)]
  · rw [if_neg h]
    unfold normalizeRaw
    rw [normUp_of_lt _ _ (by linarith), normDown_of_one_le _ _ hn1]

theorem mem_intRange (lo hi x : ℤ) : x ∈ intRange lo hi ↔ lo ≤ x ∧ x < hi := by
  unfold intRange
  rw [List.mem_map]
  constructor
  · rintro ⟨i, hi2, rfl⟩
    rw [List.mem_range] at hi2
    omega
  · intro hx
    refine ⟨(x - lo).toNat, ?_, ?_⟩
    · rw [List.mem_range]
      omega
    · omega

theorem mem_divisorsInRange (lo hi p x : ℤ) :
    x ∈ divisorsInRange lo hi p ↔ (lo ≤ x ∧ x < hi ∧ p % x = 0) := by
  unfold divisorsInRange
  simp only [List.mem_filter, mem_intRange, decide_eq_true_eq]
  tauto

theorem divisorsInRange_ne_nil (lo hi p a : ℤ) (h1 : lo ≤ a) (h2 : a < hi) (hd : a ∣ p) :
    divisorsInRange lo hi p ≠ [] :=
  List.ne_nil_of_mem ((mem_divisorsInRange lo hi p a).mpr
    ⟨h1, h2, Int.emod_eq_zero_of_dvd hd⟩)

theorem choice_mem (l : List ℤ) (d : ℕ) (h : l ≠ []) : choice l d ∈ l := by
  unfold choice
  have hl : 0 < l.length := List.length_pos.mpr h
  have hd : d % l.length < l.length := Nat.mod_lt d hl
  rw [List.getD_eq_getElem l 0 hd]
  exact List.getElem_mem hd

theorem choice_divisor_spec (lo hi p : ℤ) (d : ℕ) (hlo : 1 ≤ lo)
    (hne : divisorsInRange lo hi p ≠ []) :
    1 ≤ choice (divisorsInRange lo hi p) d ∧ choice (divisorsInRange lo hi p) d ∣ p := by
  have hm := choice_mem _ d hne
  rw [mem_divisorsInRange] at hm
  exact ⟨by omega, Int.dvd_of_emod_eq_zero hm.2.2⟩

theorem int_div_cast (p c : ℤ) (hc : 0 < c) (hd : c ∣ p) :
    ((p / c : ℤ) : ℚ) = (p : ℚ) / (c : ℚ) :=
  Int.cast_div hd (by exact_mod_cast hc.ne')

theorem div_bounds (p c : ℤ) (hp1 : 1 ≤ p) (hp2 : p ≤ 81) (hc : 0 < c) (hd : c ∣ p) :
    1 ≤ p / c ∧ p / c ≤ 81 := by
  constructor
  · have hcp : c ≤ p := Int.le_of_dvd (by omega) hd
    exact (Int.le_ediv_iff_mul_le hc).mpr (by omega)
  · calc p / c ≤ p := Int.ediv_le_self c (by omega)
    _ ≤ 81 := hp2

theorem round2_exact (q : ℚ) (k : ℤ) (h : q * 100 = (k : ℚ)) : round2 q = q := by
  unfold round2
  rw [h]
  have h2 : ((k:ℚ) + 1 / 2) = 1 / 2 + (k:ℤ) := by ring
  rw [h2, Int.floor_add_int]
  have h3 : ⌊(1:ℚ) / 2⌋ = 0 := by norm_num
  rw [h3]
  have h4 : ((0 + k : ℤ) : ℚ) = q * 100 := by push_cast; linarith
  rw [h4]
  ring

theorem shownCoef_exact (q : ℚ) (k : ℤ) (h : q * 100 = (k : ℚ)) : shownCoef q = q := by
  unfold shownCoef
  split
  · rfl
  · exact round2_exact q k h

theorem norm_int_spec (n : ℤ) (e : ℤ) (h1 : 1 ≤ n) (h2 : n < 100) :
    1 ≤ (normalizeRaw (n:ℚ) e).1 ∧ (normalizeRaw (n:ℚ) e).1 < 10 ∧
    shownCoef (normalizeRaw (n:ℚ) e).1 = (normalizeRaw (n:ℚ) e).1 ∧
    shownCoef (normalizeRaw (n:ℚ) e).1 * (10:ℚ) ^ (normalizeRaw (n:ℚ) e).2 =
      (n:ℚ) * (10:ℚ) ^ e := by
  have h0 : (0:ℚ) < (n:ℚ) := by exact_mod_cast (by omega : (0:ℤ) < n)
  have hge := normalize_coef_ge_one (n:ℚ) e h0
  have hlt := normalize_coef_lt (n:ℚ) e
  have hval := normalize_value (n:ℚ) e
  have heq := normalize_int_eq n e h1 h2
  have hshown : shownCoef (normalizeRaw (n:ℚ) e).1 = (normalizeRaw (n:ℚ) e).1 := by
    by_cases h : (10:ℚ) ≤ (n:ℚ)
    · rw [heq, if_pos h]
      dsimp only
      exact shownCoef_exact _ (10 * n) (by push_cast; ring)
    · rw [heq, if_neg h]
      dsimp only
      exact shownCoef_exact _ (100 * n) (by push_cast; ring)
  refine ⟨hge, hlt, hshown, ?_⟩
  rw [hshown]
  exact hval

theorem basicNormalize_spec (k : ℤ) (e : ℤ) (h1 : 1 ≤ k) (h2 : k ≤ 81) :
    1 ≤ (basicNormalize ((k:ℚ), e)).1 ∧ (basicNormalize ((k:ℚ), e)).1 < 10 ∧
    (basicNormalize ((k:ℚ), e)).1 * (10:ℚ) ^ (basicNormalize ((k:ℚ), e)).2 =
      (k:ℚ) * (10:ℚ) ^ e ∧
    basicNormalize ((k:ℚ), e) = normalizeRaw (k:ℚ) e := by
  have hk1 : (1:ℚ) ≤ (k:ℚ) := by exact_mod_cast h1
  have hk81 : (k:ℚ) ≤ 81 := by exact_mod_cast h2
  unfold basicNormalize
  dsimp only
  rw [normalize_int_eq k e h1 (by omega)]
  by_cases h : (10:ℚ) ≤ (k:ℚ)
  · rw [if_pos h]
    dsimp only
    refine ⟨?_, ?_, ?_, rfl⟩
    · rw [le_div_iff₀ (by norm_num : (0:ℚ) < 10)]
      linarith
    · rw [div_lt_iff₀ (by norm_num : (0:ℚ) < 10)]
      linarith
    · rw [zpow_add_one₀ (by norm_num : (10:ℚ) ≠ 0)]
      ring
  · rw [if_neg h]
    dsimp only
    exact ⟨hk1, by linarith, rfl, rfl⟩

theorem basicMulRaw_int (da db dm dn : ℤ) :
    ∃ k : ℤ, (basicMulRaw da db dm dn).1 = (k:ℚ) ∧ 1 ≤ k ∧ k ≤ 81 := by
  have ha := draw_mem 1 9 da (by norm_num)
  have hb := draw_mem 1 9 db (by norm_num)
  refine ⟨draw 1 9 da * draw 1 9 db, rfl, ?_, ?_⟩
  · nlinarith [ha.1, hb.1]
  · nlinarith [ha.1, ha.2, hb.1, hb.2]

theorem intermediateMulRaw_int (da db dm dn : ℤ) :
    ∃ k : ℤ, (intermediateMulRaw da db dm dn).1 = (k:ℚ) ∧ 1 ≤ k ∧ k ≤ 81 := by
  have ha := draw_mem 2 9 da (by norm_num)
  have hb := draw_mem 2 9 db (by norm_num)
  refine ⟨draw 2 9 da * draw 2 9 db, rfl, ?_, ?_⟩
  · nlinarith [ha.1, hb.1]
  · nlinarith [ha.1, ha.2, hb.1, hb.2]

theorem intermediateDivDraws_spec (dres db da2 : ℤ) (dc : ℕ) :
    1 ≤ (intermediateDivDraws dres db da2 dc).2 ∧
    (intermediateDivDraws dres db da2 dc).2 ∣ (intermediateDivDraws dres db da2 dc).1 ∧
    1 ≤ (intermediateDivDraws dres db da2 dc).1 ∧
    (intermediateDivDraws dres db da2 dc).1 ≤ 81 := by
  unfold intermediateDivDraws
  split
  · next h =>
    dsimp only
    have ha := draw_mem 2 9 da2 (by norm_num)
    have hne : divisorsInRange 1 10 (draw 2 9 da2) ≠ [] :=
      divisorsInRange_ne_nil 1 10 _ (draw 2 9 da2) (by omega) (by omega) dvd_rfl
    have hm := choice_mem _ dc hne
    rw [mem_divisorsInRange] at hm
    exact ⟨by omega, Int.dvd_of_emod_eq_zero hm.2.2, by omega, by omega⟩
  · next h =>
    dsimp only
    have hres := draw_mem 2 9 dres (by norm_num)
    have hb := draw_mem 2 9 db (by norm_num)
    push_neg at h
    refine ⟨by omega, dvd_mul_left _ _, ?_, ?_⟩
    · nlinarith [hres.1, hb.1]
    · omega

theorem intermediateDivRaw_int (dm dn dres db da2 : ℤ) (dc : ℕ) :
    ∃ k : ℤ, (intermediateDivRaw dm dn dres db da2 dc).1 = (k:ℚ) ∧ 1 ≤ k ∧ k ≤ 81 := by
  obtain ⟨hb1, hdvd, ha1, ha81⟩ := intermediateDivDraws_spec dres db da2 dc
  have hdb := div_bounds _ _ ha1 ha81 (by omega) hdvd
  exact ⟨(intermediateDivDraws dres db da2 dc).1 / (intermediateDivDraws dres db da2 dc).2,
    (int_div_cast _ _ (by omega) hdvd).symm, hdb.1, hdb.2⟩

theorem adv_divisor_spec (lo hi a b : ℤ) (dc : ℕ) (hlo : 1 ≤ lo) (hloa : lo ≤ a)
    (hahi : a < hi) :
    divisorsInRange lo hi (a * b) ≠ [] ∧
    1 ≤ choice (divisorsInRange lo hi (a * b)) dc ∧
    choice (divisorsInRange lo hi (a * b)) dc ∣ a * b := by
  have hne := divisorsInRange_ne_nil lo hi (a * b) a hloa hahi (dvd_mul_right a b)
  have hc := choice_divisor_spec lo hi (a * b) dc hlo hne
  exact ⟨hne, hc.1, hc.2⟩

theorem advFraction_choice_spec (da db : ℤ) (dc : ℕ) :
    divisorsInRange 2 20 (draw 2 9 da * draw 2 8 db) ≠ [] ∧
    0 < advFractionDivisorChoice da db dc ∧
    advFractionDivisorChoice da db dc ∣ draw 2 9 da * draw 2 8 db := by
  have ha := draw_mem 2 9 da (by norm_num)
  obtain ⟨hne, h1, hd⟩ := adv_divisor_spec 2 20 (draw 2 9 da) (draw 2 8 db) dc
    (by norm_num) ha.1 (by omega)
  have hceq : advFractionDivisorChoice da db dc =
      choice (divisorsInRange 2 20 (draw 2 9 da * draw 2 8 db)) dc := by
    unfold advFractionDivisorChoice
    rw [if_neg hne]
  exact ⟨hne, by rw [hceq]; omega, by rw [hceq]; exact hd⟩

theorem advMulti_choice_spec (da db dcf : ℤ) (dc : ℕ) :
    divisorsInRange 2 10 (draw 2 9 da * draw 2 9 db) ≠ [] ∧
    0 < advMultiDivisorChoice da db dcf dc ∧
    advMultiDivisorChoice da db dcf dc ∣ draw 2 9 da * draw 2 9 db := by
  have ha := draw_mem 2 9 da (by norm_num)
  obtain ⟨hne, h1, hd⟩ := adv_divisor_spec 2 10 (draw 2 9 da) (draw 2 9 db) dc
    (by norm_num) ha.1 (by omega)
  have hceq : advMultiDivisorChoice da db dcf dc =
      choice (divisorsInRange 2 10 (draw 2 9 da * draw 2 9 db)) dc := by
    unfold advMultiDivisorChoice
    rw [if_neg hne]
  exact ⟨hne, by rw [hceq]; omega, by rw [hceq]; exact hd⟩

theorem advComplex_choice_spec (da db dcf : ℤ) (dc : ℕ) :
    divisorsInRange 2 12 (draw 2 9 da * draw 2 9 db) ≠ [] ∧
    0 < advComplexDivisorChoice da db dcf dc ∧
    advComplexDivisorChoice da db dcf dc ∣ draw 2 9 da * draw 2 9 db := by
  have ha := draw_mem 2 9 da (by norm_num)
  obtain ⟨hne, h1, hd⟩ := adv_divisor_spec 2 12 (draw 2 9 da) (draw 2 9 db) dc
    (by norm_num) ha.1 (by omega)
  have hceq : advComplexDivisorChoice da db dcf dc =
      choice (divisorsInRange 2 12 (draw 2 9 da * draw 2 9 db)) dc := by
    unfold advComplexDivisorChoice
    rw [if_neg hne]
  exact ⟨hne, by rw [hceq]; omega, by rw [hceq]; exact hd⟩

theorem advFractionRaw_int (da db dm dn : ℤ) (dc : ℕ) :
    ∃ k : ℤ, (advFractionRaw da db dm dn dc).1 = (k:ℚ) ∧ 1 ≤ k ∧ k ≤ 81 := by
  have ha := draw_mem 2 9 da (by norm_num)
  have hb := draw_mem 2 8 db (by norm_num)
  obtain ⟨hne, hcpos, hcdvd⟩ := advFraction_choice_spec da db dc
  have hprod1 : 1 ≤ draw 2 9 da * draw 2 8 db := by nlinarith [ha.1, hb.1]
  have hprod81 : draw 2 9 da * draw 2 8 db ≤ 81 := by nlinarith [ha.1, ha.2, hb.1, hb.2]
  have hdb := div_bounds _ _ hprod1 hprod81 hcpos hcdvd
  exact ⟨(draw 2 9 da * draw 2 8 db) / advFractionDivisorChoice da db dc,
    (int_div_cast _ _ hcpos hcdvd).symm, hdb.1, hdb.2⟩

theorem advMultiRaw_int (da db dm dn dp dcf : ℤ) (dc : ℕ) :
    ∃ k : ℤ, (advMultiRaw da db dm dn dp dcf dc).1 = (k:ℚ) ∧ 1 ≤ k ∧ k ≤ 81 := by
  have ha := draw_mem 2 9 da (by norm_num)
  have hb := draw_mem 2 9 db (by norm_num)
  obtain ⟨hne, hcpos, hcdvd⟩ := advMulti_choice_spec da db dcf dc
  have hprod1 : 1 ≤ draw 2 9 da * draw 2 9 db := by nlinarith [ha.1, hb.1]
  have hprod81 : draw 2 9 da * draw 2 9 db ≤ 81 := by nlinarith [ha.1, ha.2, hb.1, hb.2]
  have hdb := div_bounds _ _ hprod1 hprod81 hcpos hcdvd
  exact ⟨(draw 2 9 da * draw 2 9 db) / advMultiDivisorChoice da db dcf dc,
    (int_div_cast _ _ hcpos hcdvd).symm, hdb.1, hdb.2⟩

theorem advComplexRaw_int (da db dm dn dp dcf : ℤ) (dc : ℕ) :
    ∃ k : ℤ, (advComplexRaw da db dm dn dp dcf dc).1 = (k:ℚ) ∧ 1 ≤ k ∧ k ≤ 81 := by
  have ha := draw_mem 2 9 da (by norm_num)
  have hb := draw_mem 2 9 db (by norm_num)
  obtain ⟨hne, hcpos, hcdvd⟩ := advComplex_choice_spec da db dcf dc
  have hprod1 : 1 ≤ draw 2 9 da * draw 2 9 db := by nlinarith [ha.1, hb.1]
  have hprod81 : draw 2 9 da * draw 2 9 db ≤ 81 := by nlinarith [ha.1, ha.2, hb.1, hb.2]
  have hdb := div_bounds _ _ hprod1 hprod81 hcpos hcdvd
  exact ⟨(draw 2 9 da * draw 2 9 db) / advComplexDivisorChoice da db dcf dc,
    (int_div_cast _ _ hcpos hcdvd).symm, hdb.1, hdb.2⟩

theorem normP_of_int (raw : ℚ × ℤ) (k : ℤ) (hk : raw.1 = (k:ℚ)) (h1 : 1 ≤ k) (h81 : k ≤ 81) :
    1 ≤ (normalizeP raw).1 ∧ (normalizeP raw).1 < 10 ∧
    shownCoef (normalizeP raw).1 = (normalizeP raw).1 ∧
    shownCoef (normalizeP raw).1 * (10:ℚ) ^ (normalizeP raw).2 =
      raw.1 * (10:ℚ) ^ raw.2 := by
  have hX : normalizeP raw = normalizeRaw (k:ℚ) raw.2 := by
    unfold normalizeP
    rw [hk]
  rw [hX, hk]
  exact norm_int_spec k raw.2 h1 (by omega)

/-- C2: the normalized coefficient of every scientific-notation answer — basic
two-term product, intermediate multiply and divide, and the three advanced
templates — lies in [1, 10), and the coefficient read back from the formatted
answer equals the numeric coefficient exactly (the basic template prints the
coefficient value itself; the other templates print via `shownCoef`, which is
proved exact here), so the read-back coefficient lies in [1, 10) as well. -/
theorem C2_normalized_coefficient :
    (∀ da db dm dn : ℤ,
      1 ≤ (basicMul da db dm dn).1 ∧ (basicMul da db dm dn).1 < 10) ∧
    (∀ da db dm dn : ℤ,
      1 ≤ (intermediateMul da db dm dn).1 ∧ (intermediateMul da db dm dn).1 < 10 ∧
      shownCoef (intermediateMul da db dm dn).1 = (intermediateMul da db dm dn).1) ∧
    (∀ (dm dn dres db da2 : ℤ) (dc : ℕ),
      1 ≤ (intermediateDiv dm dn dres db da2 dc).1 ∧
      (intermediateDiv dm dn dres db da2 dc).1 < 10 ∧
      shownCoef (intermediateDiv dm dn dres db da2 dc).1 =
        (intermediateDiv dm dn dres db da2 dc).1) ∧
    (∀ (da db dm dn : ℤ) (dc : ℕ),
      1 ≤ (advFraction da db dm dn dc).1 ∧ (advFraction da db dm dn dc).1 < 10 ∧
      shownCoef (advFraction da db dm dn dc).1 = (advFraction da db dm dn dc).1) ∧
    (∀ (da db dm dn dp dcf : ℤ) (dc : ℕ),
      1 ≤ (advMulti da db dm dn dp dcf dc).1 ∧ (advMulti da db dm dn dp dcf dc).1 < 10 ∧
      shownCoef (advMulti da db dm dn dp dcf dc).1 = (advMulti da db dm dn dp dcf dc).1) ∧
    (∀ (da db dm dn dp dcf : ℤ) (dc : ℕ),
      1 ≤ (advComplex da db dm dn dp dcf dc).1 ∧
      (advComplex da db dm dn dp dcf dc).1 < 10 ∧
      shownCoef (advComplex da db dm dn dp dcf dc).1 =
        (advComplex da db dm dn dp dcf dc).1) := by
  refine ⟨?_, ?_, ?_, ?_, ?_, ?_⟩
  · intro da db dm dn
    obtain ⟨k, hk, h1, h81⟩ := basicMulRaw_int da db dm dn
    have hpair : basicMulRaw da db dm dn = ((k:ℚ), (basicMulRaw da db dm dn).2) := by
      rw [← hk]
    have hs := basicNormalize_spec k (basicMulRaw da db dm dn).2 h1 h81
    have hX : basicMul da db dm dn = basicNormalize ((k:ℚ), (basicMulRaw da db dm dn).2) :=
      congrArg basicNormalize hpair
    rw [hX]
    exact ⟨hs.1, hs.2.1⟩
  · intro da db dm dn
    obtain ⟨k, hk, h1, h81⟩ := intermediateMulRaw_int da db dm dn
    have h := normP_of_int _ k hk h1 h81
    exact ⟨h.1, h.2.1, h.2.2.1⟩
  · intro dm dn dres db da2 dc
    obtain ⟨k, hk, h1, h81⟩ := intermediateDivRaw_int dm dn dres db da2 dc
    have h := normP_of_int _ k hk h1 h81
    exact ⟨h.1, h.2.1, h.2.2.1⟩
  · intro da db dm dn dc
    obtain ⟨k, hk, h1, h81⟩ := advFractionRaw_int da db dm dn dc
    have h := normP_of_int _ k hk h1 h81
    exact ⟨h.1, h.2.1, h.2.2.1⟩
  · intro da db dm dn dp dcf dc
    obtain ⟨k, hk, h1, h81⟩ := advMultiRaw_int da db dm dn dp dcf dc
    have h := normP_of_int _ k hk h1 h81
    exact ⟨h.1, h.2.1, h.2.2.1⟩
  · intro da db dm dn dp dcf dc
    obtain ⟨k, hk, h1, h81⟩ := advComplexRaw_int da db dm dn dp dcf dc
    have h := normP_of_int _ k hk h1 h81
    exact ⟨h.1, h.2.1, h.2.2.1⟩

/-- C5: the pair embedded in every powers answer is the result of the spec's
normalization loop on the raw template pair.  `normalizeRaw` (shared by the
intermediate and advanced generators) reaches a terminal state of the loop
relation `NormStep`; terminal reachable states are unique (so that state is
"the" result of the loop); and the basic two-term product path's single
conditional division agrees with the full loop on its reachable raw pairs
(products of a, b ∈ [1, 9]). -/
theorem C5_normalization_refinement :
    (∀ (q : ℚ) (e : ℤ), Relation.ReflTransGen NormStep (q, e) (normalizeRaw q e) ∧
      NormTerminal (normalizeRaw q e)) ∧
    (∀ s t1 t2 : ℚ × ℤ, Relation.ReflTransGen NormStep s t1 → NormTerminal t1 →
      Relation.ReflTransGen NormStep s t2 → NormTerminal t2 → t1 = t2) ∧
    (∀ a b e : ℤ, 1 ≤ a → a ≤ 9 → 1 ≤ b → b ≤ 9 →
      basicNormalize (((a * b : ℤ) : ℚ), e) = normalizeRaw ((a * b : ℤ) : ℚ) e) := by
  refine ⟨fun q e => ⟨normalize_reaches q e, normalize_terminal q e⟩,
    reaches_terminal_unique, ?_⟩
  intro a b e ha1 ha9 hb1 hb9
  exact (basicNormalize_spec (a * b) e (by nlinarith) (by nlinarith)).2.2.2

theorem C5_normalization_refinement_witness :
    ((1:ℤ) ≤ 6 ∧ (6:ℤ) ≤ 9 ∧ (1:ℤ) ≤ 7 ∧ (7:ℤ) ≤ 9) ∧
    basicNormalize (((6 * 7 : ℤ) : ℚ), 0) = normalizeRaw ((6 * 7 : ℤ) : ℚ) 0 :=
  ⟨by norm_num, C5_normalization_refinement.2.2 6 7 0 (by norm_num) (by norm_num)
    (by norm_num) (by norm_num)⟩

/-- C6: reconstructing coefficient × 10^exponent from every formatted powers
answer reproduces the exact value of the raw expression (the equalities are
exact in ℚ, hence within any floating rounding tolerance): the basic
single-term decimal answer, the basic product answer, and the `shownCoef`
(2-decimal formatted, stripped) answers of the intermediate and advanced
templates. -/
theorem C6_roundtrip :
    (∀ dc de : ℤ,
      basicSingleShown dc de = ((draw 1 9 dc : ℤ) : ℚ) * (10:ℚ) ^ draw (-3) 6 de) ∧
    (∀ da db dm dn : ℤ,
      (basicMul da db dm dn).1 * (10:ℚ) ^ (basicMul da db dm dn).2 =
        (basicMulRaw da db dm dn).1 * (10:ℚ) ^ (basicMulRaw da db dm dn).2) ∧
    (∀ da db dm dn : ℤ,
      shownCoef (intermediateMul da db dm dn).1 * (10:ℚ) ^ (intermediateMul da db dm dn).2 =
        (intermediateMulRaw da db dm dn).1 * (10:ℚ) ^ (intermediateMulRaw da db dm dn).2) ∧
    (∀ (dm dn dres db da2 : ℤ) (dc : ℕ),
      shownCoef (intermediateDiv dm dn dres db da2 dc).1 *
          (10:ℚ) ^ (intermediateDiv dm dn dres db da2 dc).2 =
        (intermediateDivRaw dm dn dres db da2 dc).1 *
          (10:ℚ) ^ (intermediateDivRaw dm dn dres db da2 dc).2) ∧
    (∀ (da db dm dn : ℤ) (dc : ℕ),
      shownCoef (advFraction da db dm dn dc).1 * (10:ℚ) ^ (advFraction da db dm dn dc).2 =
        (advFractionRaw da db dm dn dc).1 * (10:ℚ) ^ (advFractionRaw da db dm dn dc).2) ∧
    (∀ (da db dm dn dp dcf : ℤ) (dc : ℕ),
      shownCoef (advMulti da db dm dn dp dcf dc).1 *
          (10:ℚ) ^ (advMulti da db dm dn dp dcf dc).2 =
        (advMultiRaw da db dm dn dp dcf dc).1 *
          (10:ℚ) ^ (advMultiRaw da db dm dn dp dcf dc).2) ∧
    (∀ (da db dm dn dp dcf : ℤ) (dc : ℕ),
      shownCoef (advComplex da db dm dn dp dcf dc).1 *
          (10:ℚ) ^ (advComplex da db dm dn dp dcf dc).2 =
        (advComplexRaw da db dm dn dp dcf dc).1 *
          (10:ℚ) ^ (advComplexRaw da db dm dn dp dcf dc).2) := by
  refine ⟨?_, ?_, ?_, ?_, ?_, ?_, ?_⟩
  · intro dc de
    unfold basicSingleShown
    split
    · next h =>
      have h2 : (((draw (-3) 6 de).toNat : ℤ)) = draw (-3) 6 de := Int.toNat_of_nonneg h
      have hval : ((draw 1 9 dc : ℤ) : ℚ) * (10:ℚ) ^ draw (-3) 6 de =
          ((draw 1 9 dc * 10 ^ (draw (-3) 6 de).toNat : ℤ) : ℚ) := by
        have h3 : (10:ℚ) ^ draw (-3) 6 de = (10:ℚ) ^ ((draw (-3) 6 de).toNat : ℕ) := by
          rw [← zpow_natCast (10:ℚ) ((draw (-3) 6 de).toNat), h2]
        rw [h3]
        push_cast
        ring
      rw [hval, Int.floor_intCast]
    · next h =>
      push_neg at h
      unfold roundToDec
      have hp : (((-draw (-3) 6 de).toNat : ℤ)) = -draw (-3) 6 de :=
        Int.toNat_of_nonneg (by omega)
      have hint : ((draw 1 9 dc : ℤ) : ℚ) * (10:ℚ) ^ draw (-3) 6 de *
          (10:ℚ) ^ ((-draw (-3) 6 de).toNat) = ((draw 1 9 dc : ℤ) : ℚ) := by
        rw [← zpow_natCast (10:ℚ) ((-draw (-3) 6 de).toNat), hp, mul_assoc,
          ← zpow_add₀ (by norm_num : (10:ℚ) ≠ 0)]
        have hz : draw (-3) 6 de + -draw (-3) 6 de = 0 := by omega
        rw [hz, zpow_zero, mul_one]
      rw [hint]
      have hfloor : ⌊((draw 1 9 dc : ℤ) : ℚ) + 1 / 2⌋ = draw 1 9 dc := by
        rw [add_comm, Int.floor_add_int]
        norm_num
      rw [hfloor]
      have hzp : (10:ℚ) ^ draw (-3) 6 de = ((10:ℚ) ^ ((-draw (-3) 6 de).toNat : ℕ))⁻¹ := by
        rw [← zpow_natCast (10:ℚ) ((-draw (-3) 6 de).toNat), hp, ← zpow_neg]
        congr 1
        omega
      rw [hzp, div_eq_mul_inv]
  · intro da db dm dn
    obtain ⟨k, hk, h1, h81⟩ := basicMulRaw_int da db dm dn
    have hpair : basicMulRaw da db dm dn = ((k:ℚ), (basicMulRaw da db dm dn).2) := by
      rw [← hk]
    have hs := basicNormalize_spec k (basicMulRaw da db dm dn).2 h1 h81
    have hX : basicMul da db dm dn = basicNormalize ((k:ℚ), (basicMulRaw da db dm dn).2) :=
      congrArg basicNormalize hpair
    rw [hX, hk]
    exact hs.2.2.1
  · intro da db dm dn
    obtain ⟨k, hk, h1, h81⟩ := intermediateMulRaw_int da db dm dn
    exact (normP_of_int _ k hk h1 h81).2.2.2
  · intro dm dn dres db da2 dc
    obtain ⟨k, hk, h1, h81⟩ := intermediateDivRaw_int dm dn dres db da2 dc
    exact (normP_of_int _ k hk h1 h81).2.2.2
  · intro da db dm dn dc
    obtain ⟨k, hk, h1, h81⟩ := advFractionRaw_int da db dm dn dc
    exact (normP_of_int _ k hk h1 h81).2.2.2
  · intro da db dm dn dp dcf dc
    obtain ⟨k, hk, h1, h81⟩ := advMultiRaw_int da db dm dn dp dcf dc
    exact (normP_of_int _ k hk h1 h81).2.2.2
  · intro da db dm dn dp dcf dc
    obtain ⟨k, hk, h1, h81⟩ := advComplexRaw_int da db dm dn dp dcf dc
    exact (normP_of_int _ k hk h1 h81).2.2.2

/-- C7: no division during generation has a zero divisor and every generated
division divides evenly: the arithmetic ÷ divisor is at least `max 1 min_val`
(hence positive) and divides the dividend; the intermediate divide path always
has a positive b dividing a, its divisor list over range(1,10) being nonempty;
and each advanced template's divisor is drawn from a nonempty candidate list
of exact divisors of the operand product and is positive. -/
theorem C7_division_safety :
    (∀ (op : String) (mn mx : ℤ) (ang : Bool) (d1 d2 : ℤ) (p : Problem),
      (op = "÷" ∨ op = "/") → generate_problem op mn mx ang d1 d2 = Except.ok p →
      max 1 mn ≤ p.bottom ∧ 0 < p.bottom ∧ p.bottom ∣ p.top) ∧
    (∀ (dres db da2 : ℤ) (dc : ℕ),
      0 < (intermediateDivDraws dres db da2 dc).2 ∧
      (intermediateDivDraws dres db da2 dc).2 ∣ (intermediateDivDraws dres db da2 dc).1) ∧
    (∀ da2 : ℤ, divisorsInRange 1 10 (draw 2 9 da2) ≠ []) ∧
    (∀ (da db : ℤ) (dc : ℕ),
      divisorsInRange 2 20 (draw 2 9 da * draw 2 8 db) ≠ [] ∧
      0 < advFractionDivisorChoice da db dc ∧
      advFractionDivisorChoice da db dc ∣ draw 2 9 da * draw 2 8 db) ∧
    (∀ (da db dcf : ℤ) (dc : ℕ),
      divisorsInRange 2 10 (draw 2 9 da * draw 2 9 db) ≠ [] ∧
      0 < advMultiDivisorChoice da db dcf dc ∧
      advMultiDivisorChoice da db dcf dc ∣ draw 2 9 da * draw 2 9 db) ∧
    (∀ (da db dcf : ℤ) (dc : ℕ),
      divisorsInRange 2 12 (draw 2 9 da * draw 2 9 db) ≠ [] ∧
      0 < advComplexDivisorChoice da db dcf dc ∧
      advComplexDivisorChoice da db dcf dc ∣ draw 2 9 da * draw 2 9 db) := by
  refine ⟨?_, ?_, ?_, advFraction_choice_spec, advMulti_choice_spec, advComplex_choice_spec⟩
  · intro op mn mx ang d1 d2 p hop h
    have key : ∀ q : Problem,
        (match randint (max 1 mn) (min mx 12) d1, randint mn (min mx 12) d2 with
         | Except.ok b, Except.ok answer =>
             Except.ok { top := b * answer, bottom := b, operation := "÷", answer := answer }
         | Except.error e, _ => Except.error e
         | Except.ok _, Except.error e => Except.error e) = Except.ok q →
        max 1 mn ≤ q.bottom ∧ 0 < q.bottom ∧ q.bottom ∣ q.top := by
      intro q hq
      split at hq
      · next b ans hb hans =>
        have hb2 := randint_ok _ _ _ _ hb
        simp only [Except.ok.injEq] at hq
        subst hq
        refine ⟨hb2.2.1, ?_, dvd_mul_right _ _⟩
        have h1 : (1:ℤ) ≤ max 1 mn := le_max_left 1 mn
        simp only
        omega
      · exact absurd hq (by simp)
      · exact absurd hq (by simp)
    rcases hop with rfl | rfl
    · exact key p h
    · exact key p h
  · intro dres db da2 dc
    have h := intermediateDivDraws_spec dres db da2 dc
    exact ⟨by omega, h.2.1⟩
  · intro da2
    have ha := draw_mem 2 9 da2 (by norm_num)
    exact divisorsInRange_ne_nil 1 10 _ (draw 2 9 da2) (by omega) (by omega) dvd_rfl

theorem C7_division_safety_witness :
    generate_problem "÷" 2 12 false 0 0 =
      Except.ok { top := 4, bottom := 2, operation := "÷", answer := 2 } ∧
    (max 1 2 ≤ (2:ℤ) ∧ (0:ℤ) < 2 ∧ (2:ℤ) ∣ 4) := by
  refine ⟨by rfl, ?_⟩
  exact C7_division_safety.1 "÷" 2 12 false 0 0
    { top := 4, bottom := 2, operation := "÷", answer := 2 } (Or.inl rfl) (by rfl)

theorem colLoop_eq (num row : ℕ) : ∀ (rem col idx : ℕ),
    colLoop num row rem col idx =
      (List.range (min rem (num - idx))).map (fun k => (row, col + k, idx + k)) := by
  intro rem
  induction rem with
  | zero =>
    intro col idx
    simp [colLoop]
  | succ r ih =>
    intro col idx
    rw [colLoop]
    by_cases h : num ≤ idx
    · rw [if_pos h]
      have h0 : num - idx = 0 := by omega
      rw [h0]
      simp
    · rw [if_neg h]
      rw [ih (col + 1) (idx + 1)]
      have hm : min (r + 1) (num - idx) = min r (num - (idx + 1)) + 1 := by omega
      rw [hm, List.range_succ_eq_map]
      simp only [List.map_cons, List.map_map]
      congr 1
      refine List.map_congr_left ?_
      simp only [Function.comp_apply, Prod.mk.injEq, Nat.succ_eq_add_one, List.mem_range]
      intro a ha
      exact ⟨trivial, by omega, by omega⟩

theorem colLoop_length (num row rem col idx : ℕ) :
    (colLoop num row rem col idx).length = min rem (num - idx) := by
  rw [colLoop_eq]
  simp

theorem rowLoop_eq (num cols : ℕ) (hc : 0 < cols) : ∀ (rem row idx : ℕ),
    rowLoop num cols rem row idx =
      (List.range (min (rem * cols) (num - idx))).map
        (fun k => (row + k / cols, k % cols, idx + k)) := by
  intro rem
  induction rem with
  | zero =>
    intro row idx
    simp [rowLoop]
  | succ r ih =>
    intro row idx
    rw [rowLoop]
    rw [colLoop_length]
    by_cases h : num ≤ idx + min cols (num - idx)
    · rw [if_pos h]
      rw [colLoop_eq]
      have hmm : min ((r + 1) * cols) (num - idx) = min cols (num - idx) := by
        rw [Nat.succ_mul]
        omega
      rw [hmm]
      refine List.map_congr_left ?_
      intro a ha
      rw [List.mem_range] at ha
      have halt : a < cols := by omega
      rw [Nat.div_eq_of_lt halt, Nat.mod_eq_of_lt halt]
      simp
    · rw [if_neg h]
      rw [colLoop_eq, ih (row + 1) (idx + min cols (num - idx))]
      push_neg at h
      have hL : min cols (num - idx) = cols := by omega
      rw [hL] at h ⊢
      have hsplit : min ((r + 1) * cols) (num - idx) = cols + min (r * cols) (num - (idx + cols)) := by
        rw [Nat.succ_mul]
        omega
      rw [hsplit, List.range_add, List.map_append, List.map_map]
      congr 1
      · refine List.map_congr_left ?_
        intro a ha
        rw [List.mem_range] at ha
        rw [Nat.div_eq_of_lt ha, Nat.mod_eq_of_lt ha]
        simp
      · refine List.map_congr_left ?_
        intro a ha
        simp only [Function.comp_apply]
        have hdiv : (cols + a) / cols = a / cols + 1 := by
          rw [Nat.add_comm, Nat.add_div_right _ hc]
        have hmod : (cols + a) % cols = a % cols := by
          rw [Nat.add_comm, Nat.add_mod_right]
        rw [hdiv, hmod]
        simp [Nat.add_assoc, Nat.add_comm, Nat.add_left_comm]

theorem pageLoop_eq (num cols rows : ℕ) (hc : 0 < cols) (hr : 0 < rows) :
    ∀ (fuel idx : ℕ), num - idx ≤ fuel →
    pageLoop num cols rows idx =
      (List.range ((num - idx + rows * cols - 1) / (rows * cols))).map (fun p =>
        (List.range (min (rows * cols) (num - idx - rows * cols * p))).map
          (fun k => (k / cols, k % cols, idx + rows * cols * p + k))) := by
  have hpp : 0 < rows * cols := Nat.mul_pos hr hc
  intro fuel
  induction fuel with
  | zero =>
    intro idx hle
    rw [pageLoop, dif_neg (by omega)]
    have h0 : num - idx = 0 := by omega
    rw [h0]
    have hz : (0 + rows * cols - 1) / (rows * cols) = 0 := Nat.div_eq_of_lt (by omega)
    rw [hz]
    simp
  | succ f ih =>
    intro idx hle
    rw [pageLoop]
    by_cases hidx : idx < num
    · rw [dif_pos hidx]
      have hrl := rowLoop_eq num cols hc rows 0 idx
      have hlen : (rowLoop num cols rows 0 idx).length = min (rows * cols) (num - idx) := by
        rw [hrl]
        simp
      have hpos : 0 < (rowLoop num cols rows 0 idx).length := by
        rw [hlen]
        omega
      rw [dif_pos hpos, hlen]
      by_cases hsmall : num - idx ≤ rows * cols
      · have hmin : min (rows * cols) (num - idx) = num - idx := by omega
        rw [hmin, ih (idx + (num - idx)) (by omega)]
        have h0 : num - (idx + (num - idx)) = 0 := by omega
        rw [h0]
        have hz : (0 + rows * cols - 1) / (rows * cols) = 0 := Nat.div_eq_of_lt (by omega)
        rw [hz]
        have h1 : (num - idx + rows * cols - 1) / (rows * cols) = 1 := by
          apply Nat.div_eq_of_lt_le
          · omega
          · have : (1 + 1) * (rows * cols) = rows * cols + rows * cols := by ring
            omega
        rw [h1]
        rw [show List.range 1 = [0] from rfl]
        simp only [List.map_cons, List.map_nil, List.range_zero]
        rw [hrl]
        congr 1
        simp only [Nat.mul_zero, Nat.add_zero, Nat.sub_zero]
        rw [hmin]
        refine List.map_congr_left ?_
        intro a ha
        rw [List.mem_range] at ha
        simp
      · have hmin : min (rows * cols) (num - idx) = rows * cols := by omega
        rw [hmin, ih (idx + rows * cols) (by omega)]
        have hcount : (num - idx + rows * cols - 1) / (rows * cols) =
            (num - (idx + rows * cols) + rows * cols - 1) / (rows * cols) + 1 := by
          have he : num - idx + rows * cols - 1 =
              (num - (idx + rows * cols) + rows * cols - 1) + rows * cols := by omega
          rw [he, Nat.add_div_right _ hpp]
        rw [hcount, List.range_succ_eq_map]
        simp only [List.map_cons, List.map_map]
        congr 1
        · rw [hrl]
          simp only [Nat.mul_zero, Nat.add_zero, Nat.sub_zero]
          rw [hmin]
          refine List.map_congr_left ?_
          intro a ha
          rw [List.mem_range] at ha
          simp
        · refine List.map_congr_left ?_
          intro p hp
          simp only [Function.comp_apply, Nat.succ_eq_add_one]
          have harg : min (rows * cols) (num - idx - rows * cols * (p + 1)) =
              min (rows * cols) (num - (idx + rows * cols) - rows * cols * p) := by
            rw [Nat.mul_succ]
            omega
          rw [harg]
          refine List.map_congr_left ?_
          intro a ha
          simp only [Prod.mk.injEq]
          refine ⟨trivial, trivial, ?_⟩
          rw [Nat.mul_succ]
          omega
    · rw [dif_neg hidx]
      have h0 : num - idx = 0 := by omega
      rw [h0]
      have hz : (0 + rows * cols - 1) / (rows * cols) = 0 := Nat.div_eq_of_lt (by omega)
      rw [hz]
      simp

theorem pageLoop_main (num cols rows : ℕ) (hc : 0 < cols) (hr : 0 < rows) :
    pageLoop num cols rows 0 =
      (List.range ((num + rows * cols - 1) / (rows * cols))).map (fun p =>
        (List.range (min (rows * cols) (num - rows * cols * p))).map
          (fun k => (k / cols, k % cols, rows * cols * p + k))) := by
  have h := pageLoop_eq num cols rows hc hr num 0 (by omega)
  rw [h]
  simp

/-- C8: both renderers lay problems out in row-major order on their fixed grids
(5 per row × 6 rows = 30 per page for arithmetic, 2 per row × 5 rows = 10 per
page for powers): the emitted pages equal the row-major reference layout, the
problem pass emits exactly `ceil(num / per_page)` pages, the displayed
`total_pages` matches the emitted count, and enabling answers emits exactly
twice as many pages via an identical second pass. -/
theorem C8_grid_layout (num : ℕ) (sa : Bool) :
    generate_worksheet_pages num sa =
      rowMajorPages 5 30 num ++ (if sa then rowMajorPages 5 30 num else []) ∧
    generate_powers_pages num sa =
      rowMajorPages 2 10 num ++ (if sa then rowMajorPages 2 10 num else []) ∧
    (generate_worksheet_pages num sa).length = total_pages num 30 sa ∧
    (generate_powers_pages num sa).length = total_pages num 10 sa ∧
    (generate_worksheet_pages num false).length = (num + 30 - 1) / 30 ∧
    (generate_worksheet_pages num true).length = 2 * ((num + 30 - 1) / 30) ∧
    (generate_powers_pages num false).length = (num + 10 - 1) / 10 ∧
    (generate_powers_pages num true).length = 2 * ((num + 10 - 1) / 10) := by
  have hA : pageLoop num 5 6 0 = rowMajorPages 5 30 num := by
    rw [pageLoop_main num 5 6 (by norm_num) (by norm_num)]
    norm_num [rowMajorPages]
  have hB : pageLoop num 2 5 0 = rowMajorPages 2 10 num := by
    rw [pageLoop_main num 2 5 (by norm_num) (by norm_num)]
    norm_num [rowMajorPages]
  have hlenA : (rowMajorPages 5 30 num).length = (num + 30 - 1) / 30 := by
    simp [rowMajorPages]
  have hlenB : (rowMajorPages 2 10 num).length = (num + 10 - 1) / 10 := by
    simp [rowMajorPages]
  have hlen : ∀ s : Bool, (generate_worksheet_pages num s).length =
      (if s then 2 else 1) * ((num + 30 - 1) / 30) := by
    intro s
    unfold generate_worksheet_pages
    rw [hA]
    cases s
    · simp [hlenA]
    · simp [hlenA]
      omega
  have hlenP : ∀ s : Bool, (generate_powers_pages num s).length =
      (if s then 2 else 1) * ((num + 10 - 1) / 10) := by
    intro s
    unfold generate_powers_pages
    rw [hB]
    cases s
    · simp [hlenB]
    · simp [hlenB]
      omega
  refine ⟨?_, ?_, ?_, ?_, ?_, ?_, ?_, ?_⟩
  · unfold generate_worksheet_pages
    rw [hA]
  · unfold generate_powers_pages
    rw [hB]
  · rw [hlen sa]
    rfl
  · rw [hlenP sa]
    rfl
  · rw [hlen false]
    simp
  · rw [hlen true]
    simp
  · rw [hlenP false]
    simp
  · rw [hlenP true]
    simp
